import Mathlib

/-
Verification of the go-ico ICO decoder (package ico, file ico.go) against its
natural-language specification.

This file contains a shallow embedding of the decoder into Lean 4 and theorems
about the embedded definitions.  Modelling conventions:

* A Go byte slice is a `List Nat`; reads go through `byteAt`, which reduces the
  stored value mod 256 (a Go `byte` is always < 256).  Every `byteAt` call in
  the embedded code is guarded by the same bounds check the Go code performs
  before the corresponding access, so the out-of-range default never models a
  read the Go program actually performs.
* Go `int`/`int32` arithmetic is `Int` (the values occurring in the decoders
  are far below 2^63, so 64-bit wraparound cannot occur there); Go `uint32`
  arithmetic wraps and is modelled with explicit `% 4294967296`; the `int`
  arithmetic in `scoreSizeMatch` can overflow 64 bits and is modelled with the
  wrapping `wrap64`.  Go's `/` and `%` on signed integers truncate towards
  zero, modelled by `goDiv`/`goMod` (`Int.tdiv`/`Int.tmod`).
* A Go computation that can fail is a `Res α`: it either panics at runtime
  (out-of-range slice expression), returns an error, or returns a value.
  Error strings abbreviate the `fmt.Errorf` messages of the source.
* `image.RGBA` stores premultiplied 8-bit RGBA; `(p *RGBA).Set` with a
  `color.NRGBA` value converts through `color.NRGBA.RGBA()` followed by
  truncation to 8 bits, modelled by `nrgbaToRGBA`.  An `Img` carries the
  bounds of `image.Rect(0, 0, w, h)` and the stored bytes of each pixel.
* The external PNG codec (`image/png.Decode`) is not part of this repository;
  `Decode` takes it as an opaque parameter `pngDecode`.
-/

set_option linter.unusedVariables false

/-- Outcome of a Go computation: runtime panic, error return, or success. -/
inductive Res (α : Type) where
  | panic : Res α
  | error : String → Res α
  | ok : α → Res α

def isOk {α : Type} : Res α → Bool
  | .ok _ => true
  | _ => false

def isError {α : Type} : Res α → Bool
  | .error _ => true
  | _ => false

def isPanic {α : Type} : Res α → Bool
  | .panic => true
  | _ => false

/-- Go truncated division (`/` on Go ints rounds towards zero). -/
def goDiv (a b : Int) : Int := a.tdiv b

/-- Go truncated remainder (`%` on Go ints). -/
def goMod (a b : Int) : Int := a.tmod b

/-- Read byte `i` of a slice.  Every use is guarded by the bounds check the Go
source performs before the access, so the defaults never matter. -/
def byteAt (data : List Nat) (i : Int) : Nat := data.getD i.toNat 0 % 256

/-- Little-endian `uint16` at byte offset `off`. -/
def leU16 (data : List Nat) (off : Int) : Nat :=
  byteAt data off + 256 * byteAt data (off + 1)

/-- Little-endian `uint32` at byte offset `off`. -/
def leU32 (data : List Nat) (off : Int) : Nat :=
  byteAt data off + 256 * byteAt data (off + 1) +
    65536 * byteAt data (off + 2) + 16777216 * byteAt data (off + 3)

/-- Reinterpret a `uint32` value as Go `int32`. -/
def toInt32 (u : Nat) : Int :=
  if u < 2147483648 then (u : Int) else (u : Int) - 4294967296

/-- 8-bit RGBA quadruple; used both for `color.NRGBA` values and for the
premultiplied bytes stored in an `image.RGBA`. -/
structure RGBA where
  r : Nat
  g : Nat
  b : Nat
  a : Nat
deriving DecidableEq, Repr

/-- One channel of Go's `color.NRGBA.RGBA()` conversion followed by the `>> 8`
truncation done by `color.RGBAModel`: `uint8((uint32(v)*0x101*uint32(a)/0xff) >> 8)`. -/
def premulByte (v a : Nat) : Nat := v * 257 * a / 255 / 256

/-- `color.RGBAModel.Convert` applied to a `color.NRGBA`: the premultiplied
bytes that `(p *image.RGBA).Set(x, y, color.NRGBA{...})` stores. -/
def nrgbaToRGBA (c : RGBA) : RGBA :=
  ⟨premulByte c.r c.a, premulByte c.g c.a, premulByte c.b c.a, c.a * 257 / 256⟩

/-- An `image.RGBA` with rectangle `image.Rect(0, 0, width, height)`:
`pix x y` is the stored (premultiplied) pixel at `(x, y)`. -/
structure Img where
  width : Int
  height : Int
  pix : Int → Int → RGBA

/-- `image.NewRGBA(image.Rect(0, 0, width, height))`: zero-filled pixels. -/
def newImg (width height : Int) : Img := ⟨width, height, fun _ _ => ⟨0, 0, 0, 0⟩⟩

def emptyImg : Img := newImg 0 0

/-- `(p *image.RGBA).Set`: bounds-checked store (a no-op outside the rect). -/
def Img.set (img : Img) (x y : Int) (c : RGBA) : Img :=
  if 0 ≤ x ∧ x < img.width ∧ 0 ≤ y ∧ y < img.height then
    ⟨img.width, img.height, fun u v => if u = x ∧ v = y then c else img.pix u v⟩
  else img

/-- `img.Set(x, y, color.NRGBA{...})` on an `image.RGBA`: the color model
conversion premultiplies before storing. -/
def Img.setNRGBA (img : Img) (x y : Int) (c : RGBA) : Img :=
  img.set x y (nrgbaToRGBA c)

/-- `(p *image.RGBA).RGBAAt`: zero value outside the rect. -/
def Img.rgbaAt (img : Img) (x y : Int) : RGBA :=
  if 0 ≤ x ∧ x < img.width ∧ 0 ≤ y ∧ y < img.height then img.pix x y else ⟨0, 0, 0, 0⟩

/-- A Go `for i := 0; i < n; i++` loop whose body can return early with an
error (or panic): runs `f 0`, `f 1`, …, `f (n-1)` in order, stopping at the
first non-ok outcome. -/
def goFor {α : Type} (f : Nat → α → Res α) : Nat → α → Res α
  | 0, a => .ok a
  | n + 1, a =>
      match goFor f n a with
      | .ok b => f n b
      | .error m => .error m
      | .panic => .panic

/-- A pure Go `for i := 0; i < n; i++` loop: runs `f 0`, …, `f (n-1)` in order. -/
def goForP {α : Type} (f : Nat → α → α) : Nat → α → α
  | 0, a => a
  | n + 1, a => f n (goForP f n a)

/-- ICO file header (`type Header struct`). -/
structure Header where
  reserved : Nat
  type : Nat
  count : Nat
deriving DecidableEq, Repr

/-- One 16-byte directory entry (`type DirectoryEntry struct`). -/
structure DirectoryEntry where
  width : Nat
  height : Nat
  colorCount : Nat
  reserved : Nat
  colorPlanes : Nat
  bitsPerPixel : Nat
  size : Nat
  offset : Nat
deriving DecidableEq, Repr

def defaultEntry : DirectoryEntry := ⟨0, 0, 0, 0, 0, 0, 0, 0⟩

/-- `(e DirectoryEntry) GetWidth`: 0 means 256. -/
def DirectoryEntry.GetWidth (e : DirectoryEntry) : Int :=
  if e.width = 0 then 256 else (e.width : Int)

/-- `(e DirectoryEntry) GetHeight`: 0 means 256. -/
def DirectoryEntry.GetHeight (e : DirectoryEntry) : Int :=
  if e.height = 0 then 256 else (e.height : Int)

/-- A decoded ICO file (`type ICO struct`). -/
structure ICO where
  header : Header
  entries : List DirectoryEntry
  images : List Img

/-- `type Config struct` returned by `DecodeConfig`. -/
structure Config where
  width : Int
  height : Int
  count : Nat
deriving Repr

/-- `xorRowSize + xorRowPadding` of `decodeBMP32`:
`width*4` padded up to a multiple of 4 with Go `%`. -/
def xorTotalRowSize32 (width : Int) : Int :=
  width * 4 + goMod (4 - goMod (width * 4) 4) 4

/-- `xorRowSize + xorRowPadding` of `decodeBMP24`. -/
def xorTotalRowSize24 (width : Int) : Int :=
  width * 3 + goMod (4 - goMod (width * 3) 4) 4

/-- `andRowSize + andRowPadding` shared by every AND-mask block:
`(width+7)/8` padded up to a multiple of 4. -/
def andTotalRowSize (width : Int) : Int :=
  goDiv (width + 7) 8 + goMod (4 - goMod (goDiv (width + 7) 8) 4) 4

/-- The AND-mask application block that each `decodeBMPn` repeats verbatim,
parameterized by the offset where the mask starts (`andMaskOffset`).
Runs only after the caller has checked that the full mask range fits. -/
def applyAndMask (data : List Nat) (width height andMaskOffset : Int) (img : Img) : Img :=
  goForP
    (fun y img =>
      let srcY := height - 1 - (y : Int)
      let rowOffset := andMaskOffset + srcY * andTotalRowSize width
      goForP
        (fun x img =>
          let byteOffset := rowOffset + goDiv (x : Int) 8
          let bitIndex := 7 - goMod (x : Int) 8
          if byteOffset < (data.length : Int) then
            let maskByte := byteAt data byteOffset
            let isTransparent := (maskByte >>> bitIndex.toNat) &&& 1
            if isTransparent = 1 then
              let currentColor := img.rgbaAt (x : Int) (y : Int)
              img.setNRGBA (x : Int) (y : Int) ⟨currentColor.r, currentColor.g, currentColor.b, 0⟩
            else img
          else img)
        width.toNat img)
    height.toNat img

/-- The XOR-mask (color) phase of `decodeBMP32`: bottom-up rows of B,G,R,A
pixels, with the row check and per-pixel check of the source. -/
def xorPass32 (data : List Nat) (width height : Int) : Res Img :=
  goFor
    (fun y img =>
      let srcY := height - 1 - (y : Int)
      let rowOffset := srcY * xorTotalRowSize32 width
      if rowOffset + width * 4 > (data.length : Int) then .error "BMP data truncated at row"
      else
        goFor
          (fun x img =>
            let pixelOffset := rowOffset + (x : Int) * 4
            if pixelOffset + 3 ≥ (data.length : Int) then .error "BMP data truncated at pixel"
            else
              let b := byteAt data pixelOffset
              let g := byteAt data (pixelOffset + 1)
              let r := byteAt data (pixelOffset + 2)
              let a := byteAt data (pixelOffset + 3)
              .ok (img.setNRGBA (x : Int) (y : Int) ⟨r, g, b, a⟩))
          width.toNat img)
    height.toNat (newImg width height)

/-- `decodeBMP32`: XOR phase, then the AND mask if its full range fits. -/
def decodeBMP32 (data : List Nat) (width height : Int) : Res Img :=
  match xorPass32 data width height with
  | .ok img =>
      let andMaskOffset := height * xorTotalRowSize32 width
      if andMaskOffset + height * andTotalRowSize width ≤ (data.length : Int) then
        .ok (applyAndMask data width height andMaskOffset img)
      else .ok img
  | .error m => .error m
  | .panic => .panic

/-- The XOR-mask phase of `decodeBMP24`: B,G,R pixels, alpha 255. -/
def xorPass24 (data : List Nat) (width height : Int) : Res Img :=
  goFor
    (fun y img =>
      let srcY := height - 1 - (y : Int)
      let rowOffset := srcY * xorTotalRowSize24 width
      if rowOffset + width * 3 > (data.length : Int) then .error "BMP data truncated at row"
      else
        goFor
          (fun x img =>
            let pixelOffset := rowOffset + (x : Int) * 3
            if pixelOffset + 2 ≥ (data.length : Int) then .error "BMP data truncated at pixel"
            else
              let b := byteAt data pixelOffset
              let g := byteAt data (pixelOffset + 1)
              let r := byteAt data (pixelOffset + 2)
              .ok (img.setNRGBA (x : Int) (y : Int) ⟨r, g, b, 255⟩))
          width.toNat img)
    height.toNat (newImg width height)

/-- `decodeBMP24`. -/
def decodeBMP24 (data : List Nat) (width height : Int) : Res Img :=
  match xorPass24 data width height with
  | .ok img =>
      let andMaskOffset := height * xorTotalRowSize24 width
      if andMaskOffset + height * andTotalRowSize width ≤ (data.length : Int) then
        .ok (applyAndMask data width height andMaskOffset img)
      else .ok img
  | .error m => .error m
  | .panic => .panic

/-- A palette entry read by `decodeBMP8`/`decodeBMP4`/`decodeBMP1`:
4 bytes B,G,R,reserved at `paletteOffset + i*4`, alpha 255. -/
def paletteColor (data : List Nat) (paletteOffset : Int) (i : Nat) : RGBA :=
  ⟨byteAt data (paletteOffset + (i : Int) * 4 + 2),
   byteAt data (paletteOffset + (i : Int) * 4 + 1),
   byteAt data (paletteOffset + (i : Int) * 4), 255⟩

/-- `decodeBMP8`: 256-color palette, one palette index per byte. -/
def decodeBMP8 (data : List Nat) (width height headerSize : Int) : Res Img :=
  let paletteOffset := headerSize
  if paletteOffset + 1024 > (data.length : Int) then .error "BMP palette data truncated"
  else
    let pixelDataOffset := paletteOffset + 1024
    let totalRowSize := width + goMod (4 - goMod width 4) 4
    match
      goFor
        (fun y img =>
          let srcY := height - 1 - (y : Int)
          let rowOffset := pixelDataOffset + srcY * totalRowSize
          goFor
            (fun x img =>
              if rowOffset + (x : Int) ≥ (data.length : Int) then
                .error "BMP data truncated at pixel"
              else
                .ok (img.setNRGBA (x : Int) (y : Int)
                  (paletteColor data paletteOffset (byteAt data (rowOffset + (x : Int))))))
            width.toNat img)
        height.toNat (newImg width height)
    with
    | .ok img =>
        let andMaskOffset := pixelDataOffset + height * totalRowSize
        if andMaskOffset + height * andTotalRowSize width ≤ (data.length : Int) then
          .ok (applyAndMask data width height andMaskOffset img)
        else .ok img
    | .error m => .error m
    | .panic => .panic

/-- `decodeBMP4`: 16-color palette, two packed 4-bit indices per byte.  The
source loop steps `x` by 2; iteration `i` of the embedded loop handles
`x = 2*i` (and `x+1` when it is still below `width`). -/
def decodeBMP4 (data : List Nat) (width height headerSize : Int) : Res Img :=
  let paletteOffset := headerSize
  if paletteOffset + 64 > (data.length : Int) then .error "BMP palette data truncated"
  else
    let pixelDataOffset := paletteOffset + 64
    let rowSize := goDiv (width + 1) 2
    let totalRowSize := rowSize + goMod (4 - goMod rowSize 4) 4
    match
      goFor
        (fun y img =>
          let srcY := height - 1 - (y : Int)
          let rowOffset := pixelDataOffset + srcY * totalRowSize
          goFor
            (fun i img =>
              let x := 2 * (i : Int)
              let byteOffset := rowOffset + goDiv x 2
              if byteOffset ≥ (data.length : Int) then .error "BMP data truncated at pixel"
              else
                let pixelByte := byteAt data byteOffset
                let img1 := img.setNRGBA x (y : Int)
                  (paletteColor data paletteOffset ((pixelByte >>> 4) &&& 15))
                if x + 1 < width then
                  .ok (img1.setNRGBA (x + 1) (y : Int)
                    (paletteColor data paletteOffset (pixelByte &&& 15)))
                else .ok img1)
            (goDiv (width + 1) 2).toNat img)
        height.toNat (newImg width height)
    with
    | .ok img =>
        let andMaskOffset := pixelDataOffset + height * totalRowSize
        if andMaskOffset + height * andTotalRowSize width ≤ (data.length : Int) then
          .ok (applyAndMask data width height andMaskOffset img)
        else .ok img
    | .error m => .error m
    | .panic => .panic

/-- `decodeBMP1`: 2-color palette, eight packed 1-bit indices per byte. -/
def decodeBMP1 (data : List Nat) (width height headerSize : Int) : Res Img :=
  let paletteOffset := headerSize
  if paletteOffset + 8 > (data.length : Int) then .error "BMP palette data truncated"
  else
    let pixelDataOffset := paletteOffset + 8
    let rowSize := goDiv (width + 7) 8
    let totalRowSize := rowSize + goMod (4 - goMod rowSize 4) 4
    match
      goFor
        (fun y img =>
          let srcY := height - 1 - (y : Int)
          let rowOffset := pixelDataOffset + srcY * totalRowSize
          goFor
            (fun x img =>
              let byteOffset := rowOffset + goDiv (x : Int) 8
              if byteOffset ≥ (data.length : Int) then .error "BMP data truncated at pixel"
              else
                let pixelByte := byteAt data byteOffset
                let bitIndex := 7 - goMod (x : Int) 8
                .ok (img.setNRGBA (x : Int) (y : Int)
                  (paletteColor data paletteOffset ((pixelByte >>> bitIndex.toNat) &&& 1))))
            width.toNat img)
        height.toNat (newImg width height)
    with
    | .ok img =>
        let andMaskOffset := pixelDataOffset + height * totalRowSize
        if andMaskOffset + height * andTotalRowSize width ≤ (data.length : Int) then
          .ok (applyAndMask data width height andMaskOffset img)
        else .ok img
    | .error m => .error m
    | .panic => .panic

/-- `decodeBMP`: parse the DIB header fields and dispatch on bit depth.
Since `len(data) >= 40`, the five `binary.Read` calls (16 bytes) succeed.
`data[headerSize:]` is a Go slice expression: it panics when `headerSize`
exceeds `len(data)` — the embedded `if`s reflect exactly that semantics.
The `entry` parameter is never used, as in the source. -/
def decodeBMP (data : List Nat) (entry : DirectoryEntry) : Res Img :=
  if data.length < 40 then .error "BMP data too short"
  else
    let headerSize := leU32 data 0
    let width := toInt32 (leU32 data 4)
    let height := goDiv (toInt32 (leU32 data 8)) 2
    let bitsPerPixel := leU16 data 14
    if bitsPerPixel = 32 then
      if headerSize ≤ data.length then decodeBMP32 (data.drop headerSize) width height
      else .panic
    else if bitsPerPixel = 24 then
      if headerSize ≤ data.length then decodeBMP24 (data.drop headerSize) width height
      else .panic
    else if bitsPerPixel = 8 then decodeBMP8 data width height (headerSize : Int)
    else if bitsPerPixel = 4 then decodeBMP4 data width height (headerSize : Int)
    else if bitsPerPixel = 1 then decodeBMP1 data width height (headerSize : Int)
    else .error "unsupported BMP bit depth"

def pngSignature : List Nat := [137, 80, 78, 71, 13, 10, 26, 10]

/-- `decodeImage`: dispatch between the external PNG codec and `decodeBMP`. -/
def decodeImage (pngDecode : List Nat → Res Img) (data : List Nat)
    (entry : DirectoryEntry) : Res Img :=
  if 8 ≤ data.length ∧ data.take 8 = pngSignature then pngDecode data
  else decodeBMP data entry

/-- Parse one 16-byte directory entry at byte offset `off`. -/
def parseEntry (data : List Nat) (off : Int) : DirectoryEntry :=
  ⟨byteAt data off, byteAt data (off + 1), byteAt data (off + 2), byteAt data (off + 3),
   leU16 data (off + 4), leU16 data (off + 6), leU32 data (off + 8), leU32 data (off + 12)⟩

/-- The directory-entry loop of `Decode`: `binary.Read` of `n` consecutive
16-byte entries starting at `off`, failing when the stream runs out. -/
def readEntries (data : List Nat) : Nat → Int → Res (List DirectoryEntry)
  | 0, _ => .ok []
  | n + 1, off =>
      if off + 16 ≤ (data.length : Int) then
        match readEntries data n (off + 16) with
        | .ok rest => .ok (parseEntry data off :: rest)
        | .error m => .error m
        | .panic => .panic
      else .error "failed to read directory entry"

/-- Go slice expression `data[lo:hi]`: panics unless `lo ≤ hi ≤ len(data)`. -/
def goSlice (data : List Nat) (lo hi : Nat) : Res (List Nat) :=
  if lo ≤ hi ∧ hi ≤ data.length then .ok ((data.take hi).drop lo) else .panic

/-- The body of `Decode`'s per-entry loop for entry index `i`: both bounds
checks compare `uint32` values (`entry.Offset + entry.Size` wraps mod 2^32,
and `uint32(len(data))` truncates), then the payload is sliced and decoded. -/
def decodeOneEntry (pngDecode : List Nat → Res Img) (data : List Nat) (i : Nat)
    (entry : DirectoryEntry) : Res Img :=
  if entry.offset ≥ data.length % 4294967296 then .error "invalid offset for image"
  else if (entry.offset + entry.size) % 4294967296 > data.length % 4294967296 then
    .error "image extends beyond file boundary"
  else
    match goSlice data entry.offset ((entry.offset + entry.size) % 4294967296) with
    | .ok imageData => decodeImage pngDecode imageData entry
    | .error m => .error m
    | .panic => .panic

/-- `Decode`'s image loop over the parsed entries (index `i` only feeds the
error messages of the source). -/
def decodeImages (pngDecode : List Nat → Res Img) (data : List Nat) :
    List DirectoryEntry → Nat → Res (List Img)
  | [], _ => .ok []
  | e :: rest, i =>
      match decodeOneEntry pngDecode data i e with
      | .ok img =>
          match decodeImages pngDecode data rest (i + 1) with
          | .ok imgs => .ok (img :: imgs)
          | .error m => .error m
          | .panic => .panic
      | .error m => .error m
      | .panic => .panic

/-- `Decode`: read everything, validate the 6-byte header, parse the entries,
decode every payload.  `binary.Read` of the header succeeds because
`len(data) ≥ 6`. -/
def Decode (pngDecode : List Nat → Res Img) (data : List Nat) : Res ICO :=
  if data.length < 6 then .error "ICO file too short"
  else
    let header : Header := ⟨leU16 data 0, leU16 data 2, leU16 data 4⟩
    if header.reserved ≠ 0 then .error "invalid ICO file: reserved field must be 0"
    else if header.type ≠ 1 then .error "unsupported file type"
    else if header.count = 0 then .error "ICO file contains no images"
    else
      match readEntries data header.count 6 with
      | .ok entries =>
          match decodeImages pngDecode data entries 0 with
          | .ok images => .ok ⟨header, entries, images⟩
          | .error m => .error m
          | .panic => .panic
      | .error m => .error m
      | .panic => .panic

/-- The `for i, entry := range ico.Entries` loop of `GetBestImage`. -/
def entriesBestLoop : List DirectoryEntry → Nat → Nat → Int → Nat
  | [], _, bestIndex, _ => bestIndex
  | e :: rest, i, bestIndex, bestSize =>
      if e.GetWidth * e.GetHeight > bestSize then
        entriesBestLoop rest (i + 1) i (e.GetWidth * e.GetHeight)
      else entriesBestLoop rest (i + 1) bestIndex bestSize

/-- `GetBestImage`: `ico.Entries[0]` and `ico.Images[bestIndex]` are Go index
expressions, hence the panic branches. -/
def GetBestImage (ico : ICO) : Res (Option Img) :=
  if ico.images.length = 0 then .ok none
  else
    match ico.entries with
    | [] => .panic
    | e0 :: _ =>
        let bestIndex := entriesBestLoop ico.entries 0 0 (e0.GetWidth * e0.GetHeight)
        if bestIndex < ico.images.length then .ok (some (ico.images.getD bestIndex emptyImg))
        else .panic

/-- Wrap an integer into the two's-complement `int64` range (Go `int`). -/
def wrap64 (n : Int) : Int :=
  (n + 9223372036854775808) % 18446744073709551616 - 9223372036854775808

/-- `scoreSizeMatch`: every Go `int` operation wraps at 64 bits. -/
def scoreSizeMatch (entry : DirectoryEntry) (targetWidth targetHeight : Int) : Int :=
  let widthDiff := wrap64 (entry.GetWidth - targetWidth)
  let heightDiff := wrap64 (entry.GetHeight - targetHeight)
  wrap64 (wrap64 (widthDiff * widthDiff) + wrap64 (heightDiff * heightDiff))

/-- The `for i, entry := range ico.Entries` loop of `GetImageBySize`. -/
def entriesScoreLoop (targetWidth targetHeight : Int) :
    List DirectoryEntry → Nat → Nat → Int → Nat
  | [], _, bestIndex, _ => bestIndex
  | e :: rest, i, bestIndex, bestScore =>
      if scoreSizeMatch e targetWidth targetHeight < bestScore then
        entriesScoreLoop targetWidth targetHeight rest (i + 1) i
          (scoreSizeMatch e targetWidth targetHeight)
      else entriesScoreLoop targetWidth targetHeight rest (i + 1) bestIndex bestScore

/-- `GetImageBySize`. -/
def GetImageBySize (ico : ICO) (width height : Int) : Res (Option Img) :=
  if ico.images.length = 0 then .ok none
  else
    match ico.entries with
    | [] => .panic
    | e0 :: _ =>
        let bestIndex :=
          entriesScoreLoop width height ico.entries 0 0 (scoreSizeMatch e0 width height)
        if bestIndex < ico.images.length then .ok (some (ico.images.getD bestIndex emptyImg))
        else .panic

/-- The largest-image loop of `DecodeConfig` (state: `maxWidth, maxHeight`). -/
def configLoop : List DirectoryEntry → Int → Int → Int × Int
  | [], maxWidth, maxHeight => (maxWidth, maxHeight)
  | e :: rest, maxWidth, maxHeight =>
      if e.GetWidth * e.GetHeight > maxWidth * maxHeight then
        configLoop rest e.GetWidth e.GetHeight
      else configLoop rest maxWidth maxHeight

/-- The `count` directory entries `DecodeConfig` parses from bytes
`6 .. 6+16*count` (entry `i` starts at byte `6 + 16*i`). -/
def configEntries (data : List Nat) : List DirectoryEntry :=
  (List.range (leU16 data 4)).map (fun i : Nat => parseEntry data (6 + 16 * (i : Int)))

/-- `DecodeConfig`: `io.ReadFull` of the 6 header bytes, validation, then
`io.ReadFull` of `16*count` directory bytes — never any payload byte. -/
def DecodeConfig (data : List Nat) : Res Config :=
  if data.length < 6 then .error "failed to read ICO header"
  else
    let header : Header := ⟨leU16 data 0, leU16 data 2, leU16 data 4⟩
    if header.reserved ≠ 0 ∨ header.type ≠ 1 ∨ header.count = 0 then .error "invalid ICO file"
    else if data.length < 6 + 16 * header.count then
      .error "failed to read ICO directory entries"
    else
      let best := configLoop (configEntries data) 0 0
      .ok ⟨best.1, best.2, header.count⟩

/-- Extract the image of a successful decode (defaults to `emptyImg`). -/
def resImg : Res Img → Img
  | .ok img => img
  | _ => emptyImg

/-- Extract the `ICO` of a successful `Decode`. -/
def resICO : Res ICO → ICO
  | .ok ico => ico
  | _ => ⟨⟨0, 0, 0⟩, [], []⟩

/-- Effective pixel count of entry `j` of a directory list. -/
def sizeAt (l : List DirectoryEntry) (j : Nat) : Int :=
  (l.getD j defaultEntry).GetWidth * (l.getD j defaultEntry).GetHeight

/-- Go score of entry `j` of a directory list against a requested size. -/
def scoreAt (l : List DirectoryEntry) (w h : Int) (j : Nat) : Int :=
  scoreSizeMatch (l.getD j defaultEntry) w h

/-- The AND-mask bit the decoder consults for pixel `(x, y)`:
bit `7 - x%8` of the mask byte for the bottom-up row `height-1-y`. -/
def andMaskBit (data : List Nat) (width height andMaskOffset x y : Int) : Nat :=
  (byteAt data (andMaskOffset + (height - 1 - y) * andTotalRowSize width + goDiv x 8) >>>
    (7 - goMod x 8).toNat) &&& 1

/-- The stored bytes the XOR phase of `decodeBMP32` writes for pixel `(x, y)`:
the premultiplied conversion of the payload's B,G,R,A quadruple. -/
def xorPixel32 (data : List Nat) (width height x y : Int) : RGBA :=
  let pixelOffset := (height - 1 - y) * xorTotalRowSize32 width + x * 4
  nrgbaToRGBA
    ⟨byteAt data (pixelOffset + 2), byteAt data (pixelOffset + 1),
     byteAt data pixelOffset, byteAt data (pixelOffset + 3)⟩

/-- A stand-in for the external PNG codec, used only to evaluate the decoder
at concrete non-PNG inputs (whose decode never invokes it). -/
def pngStub : List Nat → Res Img := fun _ => Res.error "png"

/- ### Basic image lemmas -/

theorem Img.set_width (img : Img) (x y : Int) (c : RGBA) : (img.set x y c).width = img.width := by
  unfold Img.set
  split <;> rfl

theorem Img.set_height (img : Img) (x y : Int) (c : RGBA) :
    (img.set x y c).height = img.height := by
  unfold Img.set
  split <;> rfl

theorem Img.set_pix_ne (img : Img) (x y u v : Int) (c : RGBA) (h : ¬(u = x ∧ v = y)) :
    (img.set x y c).pix u v = img.pix u v := by
  unfold Img.set
  split
  · simp only [if_neg h]
  · rfl

theorem Img.set_pix_self (img : Img) (x y : Int) (c : RGBA) (hx : 0 ≤ x) (hxw : x < img.width)
    (hy : 0 ≤ y) (hyh : y < img.height) : (img.set x y c).pix x y = c := by
  unfold Img.set
  rw [if_pos ⟨hx, hxw, hy, hyh⟩]
  simp

theorem Img.rgbaAt_eq_pix (img : Img) (x y : Int) (hx : 0 ≤ x) (hxw : x < img.width)
    (hy : 0 ≤ y) (hyh : y < img.height) : img.rgbaAt x y = img.pix x y := by
  unfold Img.rgbaAt
  rw [if_pos ⟨hx, hxw, hy, hyh⟩]

theorem nrgbaToRGBA_zero_alpha (r g b : Nat) : nrgbaToRGBA ⟨r, g, b, 0⟩ = ⟨0, 0, 0, 0⟩ := by
  simp [nrgbaToRGBA, premulByte]

theorem premulByte_full (v : Nat) (h : v < 256) : premulByte v 255 = v := by
  unfold premulByte
  rw [Nat.mul_div_cancel _ (by norm_num : 0 < 255)]
  have : v * 257 = v * 256 + v := by ring
  rw [this, Nat.mul_comm v 256, Nat.mul_add_div (by norm_num), Nat.div_eq_of_lt h]
  omega

theorem byteAt_lt (data : List Nat) (i : Int) : byteAt data i < 256 :=
  Nat.mod_lt _ (by norm_num)

/- ### Generic loop lemmas -/

theorem goFor_ok_pres {α : Type} {P : α → Prop} {f : Nat → α → Res α} :
    ∀ {n : Nat} {a : α} {b : α}, (∀ i x y, P x → f i x = .ok y → P y) → P a →
      goFor f n a = .ok b → P b := by
  intro n
  induction n with
  | zero => intro a b hf ha h; unfold goFor at h; cases h; exact ha
  | succ m ih =>
      intro a b hf ha h
      unfold goFor at h
      cases hm : goFor f m a with
      | ok c => rw [hm] at h; exact hf m c b (ih hf ha hm) h
      | error e => rw [hm] at h; cases h
      | panic => rw [hm] at h; cases h

theorem goForP_pres {α : Type} {P : α → Prop} {f : Nat → α → α} :
    ∀ {n : Nat} {a : α}, (∀ i x, P x → P (f i x)) → P a → P (goForP f n a) := by
  intro n
  induction n with
  | zero => intro a hf ha; exact ha
  | succ m ih => intro a hf ha; exact hf m _ (ih hf ha)

theorem goFor_isOk {α : Type} {f : Nat → α → Res α} :
    ∀ {n : Nat} {a : α}, (∀ i, i < n → ∀ x, isOk (f i x) = true) →
      isOk (goFor f n a) = true := by
  intro n
  induction n with
  | zero => intro a hf; rfl
  | succ m ih =>
      intro a hf
      unfold goFor
      cases hm : goFor f m a with
      | ok c => exact hf m (Nat.lt_succ_self m) c
      | error e =>
          have := ih (fun i hi x => hf i (Nat.lt_succ_of_lt hi) x) (a := a)
          rw [hm] at this; cases this
      | panic =>
          have := ih (fun i hi x => hf i (Nat.lt_succ_of_lt hi) x) (a := a)
          rw [hm] at this; cases this

theorem goFor_notOk {α : Type} {f : Nat → α → Res α} :
    ∀ {n : Nat} {a : α} (k : Nat), k < n → (∀ x, isOk (f k x) = false) →
      isOk (goFor f n a) = false := by
  intro n
  induction n with
  | zero => intro a k hk; omega
  | succ m ih =>
      intro a k hk hbad
      unfold goFor
      cases hm : goFor f m a with
      | ok c =>
          rcases Nat.lt_succ_iff_lt_or_eq.mp hk with h | h
          · have := ih (a := a) k h hbad
            rw [hm] at this; cases this
          · subst h; exact hbad c
      | error e => rfl
      | panic => rfl

theorem goFor_noPanic {α : Type} {f : Nat → α → Res α} :
    ∀ {n : Nat} {a : α}, (∀ i x, isPanic (f i x) = false) →
      isPanic (goFor f n a) = false := by
  intro n
  induction n with
  | zero => intro a hf; rfl
  | succ m ih =>
      intro a hf
      unfold goFor
      cases hm : goFor f m a with
      | ok c => exact hf m c
      | error e => rfl
      | panic =>
          have := ih (a := a) hf
          rw [hm] at this; cases this

theorem goFor_pix_untouched {f : Nat → Img → Res Img} {x y : Int} :
    ∀ {n : Nat} {a b : Img}, (∀ i, i < n → ∀ u v, f i u = .ok v → v.pix x y = u.pix x y) →
      goFor f n a = .ok b → b.pix x y = a.pix x y := by
  intro n
  induction n with
  | zero => intro a b hf h; cases h; rfl
  | succ m ih =>
      intro a b hf h
      unfold goFor at h
      cases hm : goFor f m a with
      | ok c =>
          rw [hm] at h
          rw [hf m (Nat.lt_succ_self m) c b h]
          exact ih (fun i hi => hf i (Nat.lt_succ_of_lt hi)) hm
      | error e => rw [hm] at h; cases h
      | panic => rw [hm] at h; cases h

theorem goForP_pix_untouched {f : Nat → Img → Img} {x y : Int} :
    ∀ {n : Nat} {a : Img}, (∀ i, i < n → ∀ u, (f i u).pix x y = u.pix x y) →
      (goForP f n a).pix x y = a.pix x y := by
  intro n
  induction n with
  | zero => intro a hf; rfl
  | succ m ih =>
      intro a hf
      unfold goForP
      rw [hf m (Nat.lt_succ_self m) _]
      exact ih fun i hi => hf i (Nat.lt_succ_of_lt hi)

/-- Tracking the final value of one pixel through a monadic loop in which
exactly one iteration (`k`) writes it, with a state-independent value. -/
theorem goFor_pix_value {P : Img → Prop} {f : Nat → Img → Res Img} {x y : Int} {v : RGBA} :
    ∀ {n : Nat} {a b : Img} (k : Nat), (∀ i u w, P u → f i u = .ok w → P w) → P a → k < n →
      (∀ i, i < n → i ≠ k → ∀ u w, f i u = .ok w → w.pix x y = u.pix x y) →
      (∀ u w, P u → f k u = .ok w → w.pix x y = v) →
      goFor f n a = .ok b → b.pix x y = v := by
  intro n
  induction n with
  | zero => intro a b k hpres ha hk; omega
  | succ m ih =>
      intro a b k hpres ha hk hother hval h
      unfold goFor at h
      cases hm : goFor f m a with
      | ok c =>
          rw [hm] at h
          rcases Nat.lt_succ_iff_lt_or_eq.mp hk with hlt | heq
          · rw [hother m (Nat.lt_succ_self m) (by omega) c b h]
            exact ih k hpres ha hlt (fun i hi => hother i (Nat.lt_succ_of_lt hi)) hval hm
          · subst heq
            exact hval c b (goFor_ok_pres hpres ha hm) h
      | error e => rw [hm] at h; cases h
      | panic => rw [hm] at h; cases h

/-- Tracking the final value of one pixel through a pure loop in which exactly
one iteration (`k`) transforms it as a function of its current value. -/
theorem goForP_pix_value {P : Img → Prop} {f : Nat → Img → Img} {x y : Int} {g : RGBA → RGBA} :
    ∀ {n : Nat} {a : Img} (k : Nat), (∀ i u, P u → P (f i u)) → P a → k < n →
      (∀ i, i < n → i ≠ k → ∀ u, (f i u).pix x y = u.pix x y) →
      (∀ u, P u → (f k u).pix x y = g (u.pix x y)) →
      (goForP f n a).pix x y = g (a.pix x y) := by
  intro n
  induction n with
  | zero => intro a k hpres ha hk; omega
  | succ m ih =>
      intro a k hpres ha hk hother hval
      unfold goForP
      rcases Nat.lt_succ_iff_lt_or_eq.mp hk with hlt | heq
      · rw [hother m (Nat.lt_succ_self m) (by omega) _]
        exact ih k hpres ha hlt (fun i hi => hother i (Nat.lt_succ_of_lt hi)) hval
      · subst heq
        rw [hval _ (goForP_pres hpres ha)]
        congr 1
        exact goForP_pix_untouched fun i hi => hother i (Nat.lt_succ_of_lt hi) (by omega)

/- ### Row-stride arithmetic -/

/-- `width*4` is already a multiple of 4, so the 32-bpp XOR stride is exactly
`width*4`. -/
theorem xorTotalRowSize32_eq (w : Int) : xorTotalRowSize32 w = w * 4 := by
  unfold xorTotalRowSize32 goMod
  rw [Int.mul_tmod_left]
  norm_num

theorem goDiv_nonneg_eq (a b : Int) (ha : 0 ≤ a) (hb : 0 ≤ b) : goDiv a b = a / b :=
  Int.tdiv_eq_ediv ha hb

theorem goMod_nonneg_eq (a b : Int) (ha : 0 ≤ a) (hb : 0 ≤ b) : goMod a b = a % b :=
  Int.tmod_eq_emod ha hb

/-- For positive widths the AND-mask stride is `(width+7)/8` plus a padding in
`[0, 3]`. -/
theorem andTotalRowSize_bounds (w : Int) (hw : 1 ≤ w) :
    goDiv (w + 7) 8 ≤ andTotalRowSize w ∧ andTotalRowSize w ≤ goDiv (w + 7) 8 + 3 ∧
      1 ≤ goDiv (w + 7) 8 := by
  have ha : goDiv (w + 7) 8 = (w + 7) / 8 := goDiv_nonneg_eq _ _ (by omega) (by norm_num)
  have h1 : 1 ≤ (w + 7) / 8 := by omega
  have hmod : goMod ((w + 7) / 8) 4 = (w + 7) / 8 % 4 :=
    goMod_nonneg_eq _ _ (by omega) (by norm_num)
  have hmr : 0 ≤ (w + 7) / 8 % 4 ∧ (w + 7) / 8 % 4 ≤ 3 := by omega
  unfold andTotalRowSize
  rw [ha]
  have hout : goMod (4 - goMod ((w + 7) / 8) 4) 4 = (4 - (w + 7) / 8 % 4) % 4 := by
    rw [hmod]
    exact goMod_nonneg_eq _ _ (by omega) (by norm_num)
  rw [hout]
  omega

/-- The mask byte consulted for an in-range pixel lies strictly below the end
of the full mask range. -/
theorem andByteOffset_lt (w h off x y : Int) (hx : 0 ≤ x) (hxw : x < w) (hy : 0 ≤ y)
    (hyh : y < h) :
    off + (h - 1 - y) * andTotalRowSize w + goDiv x 8 < off + h * andTotalRowSize w := by
  obtain ⟨hlo, hhi, hone⟩ := andTotalRowSize_bounds w (by omega)
  have hxd : goDiv x 8 = x / 8 := goDiv_nonneg_eq _ _ hx (by norm_num)
  have hwd : goDiv (w + 7) 8 = (w + 7) / 8 := goDiv_nonneg_eq _ _ (by omega) (by norm_num)
  have hx8 : goDiv x 8 ≤ goDiv (w + 7) 8 - 1 := by
    rw [hxd, hwd]; omega
  have hT0 : 0 ≤ andTotalRowSize w := by omega
  have hrow : (h - 1 - y) * andTotalRowSize w ≤ (h - 1) * andTotalRowSize w :=
    mul_le_mul_of_nonneg_right (by omega) hT0
  have hsplit : (h - 1) * andTotalRowSize w + andTotalRowSize w = h * andTotalRowSize w := by
    ring
  have : goDiv x 8 < andTotalRowSize w := by omega
  linarith

/- ### The XOR phase of decodeBMP32 -/

/-- If the whole XOR byte range fits, the 32-bpp XOR phase succeeds. -/
theorem xorPass32_isOk (data : List Nat) (w h : Int) (hw : 0 ≤ w)
    (hfit : h * xorTotalRowSize32 w ≤ (data.length : Int)) :
    isOk (xorPass32 data w h) = true := by
  rw [xorTotalRowSize32_eq] at hfit
  unfold xorPass32
  apply goFor_isOk
  intro y hy img
  have hyh : (y : Int) < h := by omega
  have hy0 : (0 : Int) ≤ (y : Int) := by omega
  have hrow : (h - 1 - (y : Int)) * xorTotalRowSize32 w + w * 4 ≤ (data.length : Int) := by
    rw [xorTotalRowSize32_eq]
    have h1 : (h - 1 - (y : Int)) * (w * 4) + w * 4 = (h - (y : Int)) * (w * 4) := by ring
    have h2 : (h - (y : Int)) * (w * 4) ≤ h * (w * 4) :=
      mul_le_mul_of_nonneg_right (by omega) (by omega)
    linarith
  rw [if_neg (by omega)]
  apply goFor_isOk
  intro x hx img2
  have hxw : (x : Int) < w := by omega
  have hpix : (h - 1 - (y : Int)) * xorTotalRowSize32 w + (x : Int) * 4 + 3 <
      (data.length : Int) := by
    rw [xorTotalRowSize32_eq] at hrow ⊢
    have h3 : (x : Int) * 4 + 3 < w * 4 := by omega
    linarith
  rw [if_neg (by omega)]
  rfl

/-- The XOR phase only produces images with the requested bounds. -/
theorem xorPass32_dims (data : List Nat) (w h : Int) (img : Img)
    (hok : xorPass32 data w h = .ok img) : img.width = w ∧ img.height = h := by
  unfold xorPass32 at hok
  refine goFor_ok_pres (P := fun im => im.width = w ∧ im.height = h) ?_ ⟨rfl, rfl⟩ hok
  intro i a b hPa hab
  simp only at hab
  split at hab
  · cases hab
  · refine goFor_ok_pres (P := fun im => im.width = w ∧ im.height = h) ?_ hPa hab
    intro j u v hPu huv
    simp only at huv
    split at huv
    · cases huv
    · cases huv
      exact ⟨by rw [Img.setNRGBA, Img.set_width]; exact hPu.1,
             by rw [Img.setNRGBA, Img.set_height]; exact hPu.2⟩

/-- Each pixel the XOR phase produces is the premultiplied conversion of the
payload's B,G,R,A bytes at the computed offset. -/
theorem xorPass32_pix (data : List Nat) (w h x y : Int) (img : Img)
    (hx : 0 ≤ x) (hxw : x < w) (hy : 0 ≤ y) (hyh : y < h)
    (hok : xorPass32 data w h = .ok img) :
    img.pix x y = xorPixel32 data w h x y := by
  unfold xorPass32 at hok
  refine goFor_pix_value (P := fun im => im.width = w ∧ im.height = h) (x := x) (y := y)
    y.toNat ?_ ⟨rfl, rfl⟩ (by omega) ?_ ?_ hok
  · -- dimension preservation of a row step
    intro i a b hPa hab
    simp only at hab
    split at hab
    · cases hab
    · refine goFor_ok_pres (P := fun im => im.width = w ∧ im.height = h) ?_ hPa hab
      intro j u v hPu huv
      simp only at huv
      split at huv
      · cases huv
      · cases huv
        exact ⟨by rw [Img.setNRGBA, Img.set_width]; exact hPu.1,
               by rw [Img.setNRGBA, Img.set_height]; exact hPu.2⟩
  · -- rows other than y never write pixel (x, y)
    intro i hi hik a b hab
    simp only at hab
    split at hab
    · cases hab
    · refine goFor_pix_untouched ?_ hab
      intro j hj u v huv
      simp only at huv
      split at huv
      · cases huv
      · cases huv
        exact Img.set_pix_ne _ _ _ _ _ _ (by
          intro hcon
          exact absurd hcon.2 (by omega))
  · -- row y writes pixel (x, y) with the payload bytes
    intro a b hPa hab
    simp only at hab
    split at hab
    · cases hab
    · refine goFor_pix_value (P := fun im => im.width = w ∧ im.height = h) (x := x) (y := y)
        x.toNat ?_ hPa (by omega) ?_ ?_ hab
      · intro j u v hPu huv
        simp only at huv
        split at huv
        · cases huv
        · cases huv
          exact ⟨by rw [Img.setNRGBA, Img.set_width]; exact hPu.1,
                 by rw [Img.setNRGBA, Img.set_height]; exact hPu.2⟩
      · intro j hj hjx u v huv
        simp only at huv
        split at huv
        · cases huv
        · cases huv
          exact Img.set_pix_ne _ _ _ _ _ _ (by
            intro hcon
            exact absurd hcon.1 (by omega))
      · intro u v hPu huv
        simp only at huv
        split at huv
        · cases huv
        · cases huv
          rw [Img.setNRGBA]
          have hxx : ((x.toNat : Nat) : Int) = x := by omega
          have hyy : ((y.toNat : Nat) : Int) = y := by omega
          rw [hxx, hyy, Img.set_pix_self _ _ _ _ hx (by rw [hPu.1]; exact hxw) hy
            (by rw [hPu.2]; exact hyh)]
          unfold xorPixel32
          rfl

/- ### The AND-mask phase -/

theorem applyAndMask_dims (data : List Nat) (w h off : Int) (img : Img) :
    (applyAndMask data w h off img).width = img.width ∧
      (applyAndMask data w h off img).height = img.height := by
  unfold applyAndMask
  refine goForP_pres (P := fun im : Img => im.width = img.width ∧ im.height = img.height) ?_
    ⟨rfl, rfl⟩
  intro i u hPu
  try simp only
  refine goForP_pres (P := fun im : Img => im.width = img.width ∧ im.height = img.height) ?_ hPu
  intro j v hPv
  try simp only
  split
  · split
    · exact ⟨by rw [Img.setNRGBA, Img.set_width]; exact hPv.1,
             by rw [Img.setNRGBA, Img.set_height]; exact hPv.2⟩
    · exact hPv
  · exact hPv

/-- Pixel-level behaviour of the AND-mask block when the whole mask range
fits: a mask bit of 1 stores the fully transparent pixel, a mask bit of 0
leaves the pixel untouched. -/
theorem applyAndMask_pix (data : List Nat) (w h off x y : Int) (img : Img)
    (himgw : img.width = w) (himgh : img.height = h) (hx : 0 ≤ x) (hxw : x < w)
    (hy : 0 ≤ y) (hyh : y < h)
    (hfit : off + h * andTotalRowSize w ≤ (data.length : Int)) :
    (applyAndMask data w h off img).pix x y =
      if andMaskBit data w h off x y = 1 then ⟨0, 0, 0, 0⟩ else img.pix x y := by
  have hxx : ((x.toNat : Nat) : Int) = x := by omega
  have hyy : ((y.toNat : Nat) : Int) = y := by omega
  unfold applyAndMask
  refine goForP_pix_value (P := fun im : Img => im.width = w ∧ im.height = h) (x := x) (y := y)
    (g := fun old => if andMaskBit data w h off x y = 1 then ⟨0, 0, 0, 0⟩ else old)
    y.toNat ?_ ⟨himgw, himgh⟩ (by omega) ?_ ?_
  · -- dimension preservation of a row step
    intro i u hPu
    try simp only
    refine goForP_pres (P := fun im : Img => im.width = w ∧ im.height = h) ?_ hPu
    intro j v hPv
    try simp only
    split
    · split
      · exact ⟨by rw [Img.setNRGBA, Img.set_width]; exact hPv.1,
               by rw [Img.setNRGBA, Img.set_height]; exact hPv.2⟩
      · exact hPv
    · exact hPv
  · -- rows other than y never write pixel (x, y)
    intro i hi hik u
    try simp only
    apply goForP_pix_untouched
    intro j hj v
    try simp only
    split
    · split
      · exact Img.set_pix_ne _ _ _ _ _ _ (by
          intro hcon
          exact absurd hcon.2 (by omega))
      · rfl
    · rfl
  · -- row y transforms pixel (x, y) according to its mask bit
    intro u hPu
    try simp only
    refine goForP_pix_value (P := fun im : Img => im.width = w ∧ im.height = h) (x := x) (y := y)
      (g := fun old => if andMaskBit data w h off x y = 1 then ⟨0, 0, 0, 0⟩ else old)
      x.toNat ?_ hPu (by omega) ?_ ?_
    · intro j v hPv
      try simp only
      split
      · split
        · exact ⟨by rw [Img.setNRGBA, Img.set_width]; exact hPv.1,
                 by rw [Img.setNRGBA, Img.set_height]; exact hPv.2⟩
        · exact hPv
      · exact hPv
    · intro j hj hjx v
      try simp only
      split
      · split
        · exact Img.set_pix_ne _ _ _ _ _ _ (by
            intro hcon
            exact absurd hcon.1 (by omega))
        · rfl
      · rfl
    · intro v hPv
      try simp only
      rw [hxx, hyy]
      have hguard : off + (h - 1 - y) * andTotalRowSize w + goDiv x 8 < (data.length : Int) := by
        have := andByteOffset_lt w h off x y hx hxw hy hyh
        omega
      rw [if_pos hguard]
      by_cases hbit :
          (byteAt data (off + (h - 1 - y) * andTotalRowSize w + goDiv x 8) >>>
            (7 - goMod x 8).toNat) &&& 1 = 1
      · have hbitm : andMaskBit data w h off x y = 1 := hbit
        rw [if_pos hbit, if_pos hbitm, Img.setNRGBA,
          Img.set_pix_self _ _ _ _ hx (by rw [hPv.1]; exact hxw) hy (by rw [hPv.2]; exact hyh),
          nrgbaToRGBA_zero_alpha]
      · have hbitm : ¬andMaskBit data w h off x y = 1 := hbit
        rw [if_neg hbit, if_neg hbitm]

/- ### Claim C5: a truncated AND mask is silently skipped -/

/--
C5: when the payload cannot contain the full AND-mask byte range, the
32-bpp decoder returns exactly the XOR-phase result: the mask is treated as
absent, every pixel keeps the alpha the XOR decode produced, and no error is
added (the entry decodes successfully whenever its XOR phase does).
-/
theorem c5_and_mask_truncated_nonfatal (data : List Nat) (w h : Int)
    (hnofit : ¬(h * xorTotalRowSize32 w + h * andTotalRowSize w ≤ (data.length : Int))) :
    decodeBMP32 data w h = xorPass32 data w h := by
  unfold decodeBMP32
  cases hcase : xorPass32 data w h with
  | ok img => simp only [if_neg hnofit]
  | error m => rfl
  | panic => rfl

/--
Witness for C5 at a concrete input: a 1×1 32-bpp payload of exactly the four
XOR bytes has no room for the AND mask, and decodes to the XOR result.
-/
theorem c5_and_mask_truncated_nonfatal_witness :
    decodeBMP32 [0, 0, 255, 128] 1 1 = xorPass32 [0, 0, 255, 128] 1 1 :=
  c5_and_mask_truncated_nonfatal [0, 0, 255, 128] 1 1 (by decide)

/- ### Claim C4: AND-mask bit semantics -/

/--
C4: for a 32-bpp entry whose AND mask is applied (the full mask range fits),
at every in-range pixel a mask bit of 1 forces the final alpha to 0, a mask
bit of 0 leaves the pixel exactly as the XOR decode left it, and the mask
never increases any pixel's alpha.
-/
theorem c4_and_mask_bit_semantics (data : List Nat) (w h x y : Int)
    (hx : 0 ≤ x) (hxw : x < w) (hy : 0 ≤ y) (hyh : y < h)
    (hxok : isOk (xorPass32 data w h) = true)
    (hfit : h * xorTotalRowSize32 w + h * andTotalRowSize w ≤ (data.length : Int)) :
    isOk (decodeBMP32 data w h) = true ∧
    (andMaskBit data w h (h * xorTotalRowSize32 w) x y = 1 →
      ((resImg (decodeBMP32 data w h)).pix x y).a = 0) ∧
    (andMaskBit data w h (h * xorTotalRowSize32 w) x y = 0 →
      (resImg (decodeBMP32 data w h)).pix x y = (resImg (xorPass32 data w h)).pix x y) ∧
    ((resImg (decodeBMP32 data w h)).pix x y).a ≤ ((resImg (xorPass32 data w h)).pix x y).a := by
  cases hcase : xorPass32 data w h with
  | error m => rw [hcase] at hxok; cases hxok
  | panic => rw [hcase] at hxok; cases hxok
  | ok imgX =>
      obtain ⟨hdw, hdh⟩ := xorPass32_dims data w h imgX hcase
      have hdec : decodeBMP32 data w h =
          .ok (applyAndMask data w h (h * xorTotalRowSize32 w) imgX) := by
        unfold decodeBMP32
        rw [hcase]
        simp only [if_pos hfit]
      have hpix : (applyAndMask data w h (h * xorTotalRowSize32 w) imgX).pix x y =
          if andMaskBit data w h (h * xorTotalRowSize32 w) x y = 1 then ⟨0, 0, 0, 0⟩
          else imgX.pix x y :=
        applyAndMask_pix data w h (h * xorTotalRowSize32 w) x y imgX hdw hdh hx hxw hy hyh hfit
      rw [hdec]
      refine ⟨rfl, ?_, ?_, ?_⟩
      · intro hbit
        show ((applyAndMask data w h (h * xorTotalRowSize32 w) imgX).pix x y).a = 0
        rw [hpix, if_pos hbit]
      · intro hbit
        show (applyAndMask data w h (h * xorTotalRowSize32 w) imgX).pix x y = imgX.pix x y
        rw [hpix, if_neg (by omega)]
      · show ((applyAndMask data w h (h * xorTotalRowSize32 w) imgX).pix x y).a ≤
          (imgX.pix x y).a
        rw [hpix]
        by_cases hbit : andMaskBit data w h (h * xorTotalRowSize32 w) x y = 1
        · rw [if_pos hbit]; exact Nat.zero_le _
        · rw [if_neg hbit]

/--
Witness for C4 at a concrete input: a 1×1 32-bpp payload with XOR bytes
(10,20,30,40) and one mask row whose bit is 1 — the theorem applies and in
particular forces the final alpha to 0.
-/
theorem c4_and_mask_bit_semantics_witness :
    isOk (decodeBMP32 [10, 20, 30, 40, 128, 0, 0, 0] 1 1) = true ∧
    (andMaskBit [10, 20, 30, 40, 128, 0, 0, 0] 1 1 (1 * xorTotalRowSize32 1) 0 0 = 1 →
      ((resImg (decodeBMP32 [10, 20, 30, 40, 128, 0, 0, 0] 1 1)).pix 0 0).a = 0) ∧
    (andMaskBit [10, 20, 30, 40, 128, 0, 0, 0] 1 1 (1 * xorTotalRowSize32 1) 0 0 = 0 →
      (resImg (decodeBMP32 [10, 20, 30, 40, 128, 0, 0, 0] 1 1)).pix 0 0 =
        (resImg (xorPass32 [10, 20, 30, 40, 128, 0, 0, 0] 1 1)).pix 0 0) ∧
    ((resImg (decodeBMP32 [10, 20, 30, 40, 128, 0, 0, 0] 1 1)).pix 0 0).a ≤
      ((resImg (xorPass32 [10, 20, 30, 40, 128, 0, 0, 0] 1 1)).pix 0 0).a :=
  c4_and_mask_bit_semantics [10, 20, 30, 40, 128, 0, 0, 0] 1 1 0 0 (by decide) (by decide)
    (by decide) (by decide) (by decide) (by decide)

/- ### Claim C3: decoded pixels are premultiplied, not straight alpha -/

/--
C3 counterexample: the 1×1 32-bpp payload B,G,R,A = (0,0,255,128) decodes
successfully, but reading the pixel back yields the premultiplied bytes
(128,0,0,128), not the straight-alpha (255,0,0,128) the claim requires.
-/
theorem c3_pixel_not_straight_alpha :
    isOk (decodeBMP32 [0, 0, 255, 128] 1 1) = true ∧
    (resImg (decodeBMP32 [0, 0, 255, 128] 1 1)).pix 0 0 = ⟨128, 0, 0, 128⟩ ∧
    (⟨128, 0, 0, 128⟩ : RGBA) ≠ ⟨255, 0, 0, 128⟩ := by
  refine ⟨by decide, by decide, by decide⟩

/--
C3 as amended: the decoder stores pixels in a premultiplied `image.RGBA`
buffer.  For every 32-bpp entry whose XOR range fits, wherever the AND mask
leaves the pixel, a payload B,G,R,A quadruple reads back as Go's premultiplied
conversion of (R,G,B,A); the round trip is exact when A = 255.
-/
theorem c3_premultiplied_pixels (data : List Nat) (w h x y : Int)
    (hx : 0 ≤ x) (hxw : x < w) (hy : 0 ≤ y) (hyh : y < h)
    (hfit : h * xorTotalRowSize32 w ≤ (data.length : Int)) :
    isOk (decodeBMP32 data w h) = true ∧
    (resImg (decodeBMP32 data w h)).pix x y =
      (if h * xorTotalRowSize32 w + h * andTotalRowSize w ≤ (data.length : Int) ∧
          andMaskBit data w h (h * xorTotalRowSize32 w) x y = 1 then ⟨0, 0, 0, 0⟩
       else xorPixel32 data w h x y) ∧
    (byteAt data ((h - 1 - y) * xorTotalRowSize32 w + x * 4 + 3) = 255 →
      xorPixel32 data w h x y =
        ⟨byteAt data ((h - 1 - y) * xorTotalRowSize32 w + x * 4 + 2),
         byteAt data ((h - 1 - y) * xorTotalRowSize32 w + x * 4 + 1),
         byteAt data ((h - 1 - y) * xorTotalRowSize32 w + x * 4), 255⟩) := by
  have hxorok : isOk (xorPass32 data w h) = true :=
    xorPass32_isOk data w h (by omega) hfit
  cases hcase : xorPass32 data w h with
  | error m => rw [hcase] at hxorok; cases hxorok
  | panic => rw [hcase] at hxorok; cases hxorok
  | ok imgX =>
      obtain ⟨hdw, hdh⟩ := xorPass32_dims data w h imgX hcase
      have hxorpix : imgX.pix x y = xorPixel32 data w h x y :=
        xorPass32_pix data w h x y imgX hx hxw hy hyh hcase
      have hlast : byteAt data ((h - 1 - y) * xorTotalRowSize32 w + x * 4 + 3) = 255 →
          xorPixel32 data w h x y =
            ⟨byteAt data ((h - 1 - y) * xorTotalRowSize32 w + x * 4 + 2),
             byteAt data ((h - 1 - y) * xorTotalRowSize32 w + x * 4 + 1),
             byteAt data ((h - 1 - y) * xorTotalRowSize32 w + x * 4), 255⟩ := by
        intro ha
        unfold xorPixel32 nrgbaToRGBA
        simp only [ha]
        rw [premulByte_full _ (byteAt_lt data _), premulByte_full _ (byteAt_lt data _),
          premulByte_full _ (byteAt_lt data _)]
      by_cases hmfit : h * xorTotalRowSize32 w + h * andTotalRowSize w ≤ (data.length : Int)
      · have hdec : decodeBMP32 data w h =
            .ok (applyAndMask data w h (h * xorTotalRowSize32 w) imgX) := by
          unfold decodeBMP32
          rw [hcase]
          simp only [if_pos hmfit]
        have hpix := applyAndMask_pix data w h (h * xorTotalRowSize32 w) x y imgX hdw hdh
          hx hxw hy hyh hmfit
        rw [hdec]
        refine ⟨rfl, ?_, hlast⟩
        show (applyAndMask data w h (h * xorTotalRowSize32 w) imgX).pix x y = _
        rw [hpix]
        by_cases hbit : andMaskBit data w h (h * xorTotalRowSize32 w) x y = 1
        · rw [if_pos hbit, if_pos ⟨hmfit, hbit⟩]
        · rw [if_neg hbit, if_neg (by exact fun hcon => hbit hcon.2), hxorpix]
      · have hdec : decodeBMP32 data w h = .ok imgX := by
          unfold decodeBMP32
          rw [hcase]
          simp only [if_neg hmfit]
        rw [hdec]
        refine ⟨rfl, ?_, hlast⟩
        show imgX.pix x y = _
        rw [if_neg (by exact fun hcon => hmfit hcon.1), hxorpix]

/--
Witness for the amended C3 at B,G,R,A = (0,0,255,128): the theorem applies at
a concrete 1×1 payload.
-/
theorem c3_premultiplied_pixels_witness :
    isOk (decodeBMP32 [0, 0, 255, 128] 1 1) = true ∧
    (resImg (decodeBMP32 [0, 0, 255, 128] 1 1)).pix 0 0 =
      (if (1 : Int) * xorTotalRowSize32 1 + 1 * andTotalRowSize 1 ≤
          (([0, 0, 255, 128] : List Nat).length : Int) ∧
          andMaskBit [0, 0, 255, 128] 1 1 (1 * xorTotalRowSize32 1) 0 0 = 1 then ⟨0, 0, 0, 0⟩
       else xorPixel32 [0, 0, 255, 128] 1 1 0 0) ∧
    (byteAt [0, 0, 255, 128] (((1 : Int) - 1 - 0) * xorTotalRowSize32 1 + 0 * 4 + 3) = 255 →
      xorPixel32 [0, 0, 255, 128] 1 1 0 0 =
        ⟨byteAt [0, 0, 255, 128] (((1 : Int) - 1 - 0) * xorTotalRowSize32 1 + 0 * 4 + 2),
         byteAt [0, 0, 255, 128] (((1 : Int) - 1 - 0) * xorTotalRowSize32 1 + 0 * 4 + 1),
         byteAt [0, 0, 255, 128] (((1 : Int) - 1 - 0) * xorTotalRowSize32 1 + 0 * 4), 255⟩) :=
  c3_premultiplied_pixels [0, 0, 255, 128] 1 1 0 0 (by decide) (by decide) (by decide)
    (by decide) (by decide)

/- ### Claim C6: XOR truncation is fatal -/

theorem isError_of_not_ok_not_panic {α : Type} (r : Res α) (h1 : isOk r = false)
    (h2 : isPanic r = false) : isError r = true := by
  cases r with
  | ok a => cases h1
  | panic => cases h2
  | error m => rfl

/-- The XOR phase never panics: every byte access is guarded. -/
theorem xorPass32_noPanic (data : List Nat) (w h : Int) :
    isPanic (xorPass32 data w h) = false := by
  unfold xorPass32
  apply goFor_noPanic
  intro i a
  simp only
  split
  · rfl
  · apply goFor_noPanic
    intro j u
    split
    · rfl
    · rfl

/-- If some row of the XOR mask does not fit, the XOR phase is not ok. -/
theorem xorPass32_notOk (data : List Nat) (w h y : Int) (hy : 0 ≤ y) (hyh : y < h)
    (htrunc : (h - 1 - y) * xorTotalRowSize32 w + w * 4 > (data.length : Int)) :
    isOk (xorPass32 data w h) = false := by
  unfold xorPass32
  apply goFor_notOk y.toNat (by omega)
  intro a
  rw [if_pos (by rw [show ((y.toNat : Nat) : Int) = y by omega]; exact htrunc)]
  rfl

/-- All entry decodes before a successful `decodeImages` result are ok. -/
theorem decodeImages_all_ok (pngDecode : List Nat → Res Img) (data : List Nat) :
    ∀ (l : List DirectoryEntry) (i : Nat) (imgs : List Img),
      decodeImages pngDecode data l i = .ok imgs →
      ∀ j, j < l.length → isOk (decodeOneEntry pngDecode data (i + j) (l.getD j defaultEntry)) = true := by
  intro l
  induction l with
  | nil => intro i imgs h j hj; simp at hj
  | cons e rest ih =>
      intro i imgs h j hj
      unfold decodeImages at h
      cases h1 : decodeOneEntry pngDecode data i e with
      | error m => rw [h1] at h; cases h
      | panic => rw [h1] at h; cases h
      | ok img =>
          rw [h1] at h
          cases j with
          | zero => simpa [List.getD] using congrArg isOk h1
          | succ jj =>
              cases h2 : decodeImages pngDecode data rest (i + 1) with
              | error m => rw [h2] at h; cases h
              | panic => rw [h2] at h; cases h
              | ok imgs2 =>
                  have hres := ih (i + 1) imgs2 h2 jj (by simpa using hj)
                  have heq : i + 1 + jj = i + (jj + 1) := by omega
                  rw [heq] at hres
                  simpa [List.getD] using hres

/-- Inversion of a successful `Decode`: every directory entry's decode step
returned ok (fail-fast: a single failing entry would have aborted the call). -/
theorem Decode_ok_all_entries (pngDecode : List Nat → Res Img) (data : List Nat) (ico : ICO)
    (h : Decode pngDecode data = .ok ico) :
    ∀ j, j < ico.entries.length →
      isOk (decodeOneEntry pngDecode data j (ico.entries.getD j defaultEntry)) = true := by
  unfold Decode at h
  split at h
  · cases h
  · simp only at h
    split at h
    · cases h
    · split at h
      · cases h
      · split at h
        · cases h
        · cases hre : readEntries data (leU16 data 4) 6 with
          | error m => rw [hre] at h; cases h
          | panic => rw [hre] at h; cases h
          | ok entries =>
              rw [hre] at h
              simp only at h
              cases hdi : decodeImages pngDecode data entries 0 with
              | error m => rw [hdi] at h; cases h
              | panic => rw [hdi] at h; cases h
              | ok images =>
                  rw [hdi] at h
                  cases h
                  intro j hj
                  have := decodeImages_all_ok pngDecode data entries 0 images hdi j hj
                  simpa using this

/--
C6: (1) if any XOR-mask pixel of a 32-bpp entry needs a byte offset beyond
the available payload, `decodeBMP32` fails with an error (never a success);
(2) a successful `Decode` requires every entry's decode step to have been ok,
so such an error aborts the entire `Decode` call and no ICO value is
returned.
-/
theorem c6_xor_truncation_fatal :
    (∀ (data : List Nat) (w h x y : Int), 0 ≤ x → x < w → 0 ≤ y → y < h →
      (h - 1 - y) * xorTotalRowSize32 w + x * 4 + 3 ≥ (data.length : Int) →
      isError (decodeBMP32 data w h) = true) ∧
    (∀ (pngDecode : List Nat → Res Img) (data : List Nat) (ico : ICO),
      Decode pngDecode data = .ok ico →
      ∀ j, j < ico.entries.length →
        isOk (decodeOneEntry pngDecode data j (ico.entries.getD j defaultEntry)) = true) := by
  constructor
  · intro data w h x y hx hxw hy hyh hneed
    have hrow : (h - 1 - y) * xorTotalRowSize32 w + w * 4 > (data.length : Int) := by
      rw [xorTotalRowSize32_eq] at hneed ⊢
      omega
    have hnotok := xorPass32_notOk data w h y hy hyh hrow
    have hnopanic := xorPass32_noPanic data w h
    unfold decodeBMP32
    cases hcase : xorPass32 data w h with
    | ok img => rw [hcase] at hnotok; cases hnotok
    | panic => rw [hcase] at hnopanic; cases hnopanic
    | error m => rfl
  · exact Decode_ok_all_entries

/-- The minimal valid one-entry ICO of the repository's own test suite
(`createMinimalICO`): 1×1, 32 bpp, red opaque pixel. -/
def minimalIcoBytes : List Nat :=
  [0, 0, 1, 0, 1, 0,
   1, 1, 0, 0, 1, 0, 32, 0, 44, 0, 0, 0, 22, 0, 0, 0,
   40, 0, 0, 0, 1, 0, 0, 0, 2, 0, 0, 0, 1, 0, 32, 0, 0, 0, 0, 0, 4, 0, 0, 0,
   0, 0, 0, 0, 0, 0, 0, 0, 0, 0, 0, 0, 0, 0, 0, 0,
   0, 0, 255, 255]

/--
Witness for C6: part (1) applied to the empty payload of a 1×1 entry, and
part (2) applied to the minimal valid ICO of the test suite.
-/
theorem c6_xor_truncation_fatal_witness :
    isError (decodeBMP32 ([] : List Nat) 1 1) = true ∧
    isOk (decodeOneEntry pngStub minimalIcoBytes 0
      ((resICO (Decode pngStub minimalIcoBytes)).entries.getD 0 defaultEntry)) = true :=
  ⟨c6_xor_truncation_fatal.1 [] 1 1 0 0 (by decide) (by decide) (by decide) (by decide)
      (by decide),
   c6_xor_truncation_fatal.2 pngStub minimalIcoBytes (resICO (Decode pngStub minimalIcoBytes))
      (by rfl) 0 (by decide)⟩

/- ### Claim C1: Decode can panic instead of returning an error -/

/-- A 62-byte ICO whose single BMP payload (40 bytes) declares a DIB
`headerSize` of 41: every `Decode` bounds check passes, then
`data[headerSize:]` is out of range. -/
def headerSizeOverflowInput : List Nat :=
  [0, 0, 1, 0, 1, 0,
   1, 1, 0, 0, 1, 0, 32, 0, 40, 0, 0, 0, 22, 0, 0, 0,
   41, 0, 0, 0, 1, 0, 0, 0, 2, 0, 0, 0, 1, 0, 32, 0, 0, 0, 0, 0, 0, 0, 0, 0,
   0, 0, 0, 0, 0, 0, 0, 0, 0, 0, 0, 0, 0, 0, 0, 0]

/--
C1 is violated by the code: on `headerSizeOverflowInput` — a BMP fragment
whose DIB headerSize field (41) exceeds the 40-byte payload — `Decode` panics
(Go slice out of range in `data[headerSize:]`) instead of returning an error.
-/
theorem c1_headerSize_slice_panics :
    leU32 (headerSizeOverflowInput.drop 22) 0 = 41 ∧
    (headerSizeOverflowInput.drop 22).length = 40 ∧
    isPanic (Decode pngStub headerSizeOverflowInput) = true := by
  refine ⟨by decide, by decide, by decide⟩

/- ### Claim C2: the offset+size check wraps in uint32 arithmetic -/

/-- A 62-byte ICO whose single entry has `offset = 22` and
`size = 4294967295`: the exact sum exceeds the buffer, but the `uint32` sum
wraps to 21 and passes the check, after which `data[22:21]` panics. -/
def sizeWrapInput : List Nat :=
  [0, 0, 1, 0, 1, 0,
   1, 1, 0, 0, 1, 0, 32, 0, 255, 255, 255, 255, 22, 0, 0, 0,
   40, 0, 0, 0, 1, 0, 0, 0, 2, 0, 0, 0, 1, 0, 32, 0, 0, 0, 0, 0, 0, 0, 0, 0,
   0, 0, 0, 0, 0, 0, 0, 0, 0, 0, 0, 0, 0, 0, 0, 0]

/--
C2 is violated by the code: the bounds check computes `offset + size` in
wrapping `uint32` arithmetic.  On `sizeWrapInput` the parsed entry has
offset 22 and size 4294967295, whose exact sum exceeds the 62-byte buffer,
yet the wrapped sum (21) passes the check and `Decode` panics on the slice
`data[22:21]` instead of returning an error for the offending entry.
-/
theorem c2_uint32_wraparound_panics :
    (parseEntry sizeWrapInput 6).offset = 22 ∧
    (parseEntry sizeWrapInput 6).size = 4294967295 ∧
    sizeWrapInput.length = 62 ∧
    ((parseEntry sizeWrapInput 6).offset + (parseEntry sizeWrapInput 6).size) %
      4294967296 = 21 ∧
    isPanic (Decode pngStub sizeWrapInput) = true := by
  refine ⟨by decide, by decide, by decide, by decide, by decide⟩

/- ### Claim C10: the BMP decoder never reads the directory entry -/

/--
C10: `decodeBMP` is independent of the directory entry passed to it — for any
payload and any two entries the results are identical, so the decoded
dimensions come only from the DIB header inside the payload.
-/
theorem c10_decodeBMP_ignores_entry (data : List Nat) (e1 e2 : DirectoryEntry) :
    decodeBMP data e1 = decodeBMP data e2 := rfl

/- ### Claim C7: GetBestImage -/

/-- Loop invariant for `entriesBestLoop`: starting from a running best index
`bi` that is the first maximizer of the first `i` entries, the loop returns
the first maximizer of the whole directory. -/
theorem entriesBestLoop_spec :
    ∀ (rest L : List DirectoryEntry) (i bi : Nat),
      i + rest.length = L.length →
      (∀ k, k < rest.length → rest.getD k defaultEntry = L.getD (i + k) defaultEntry) →
      bi < L.length →
      (∀ j, j < i → sizeAt L j ≤ sizeAt L bi) →
      (∀ j, j < bi → sizeAt L j < sizeAt L bi) →
      entriesBestLoop rest i bi (sizeAt L bi) < L.length ∧
      (∀ j, j < L.length → sizeAt L j ≤ sizeAt L (entriesBestLoop rest i bi (sizeAt L bi))) ∧
      (∀ j, j < entriesBestLoop rest i bi (sizeAt L bi) →
        sizeAt L j < sizeAt L (entriesBestLoop rest i bi (sizeAt L bi))) := by
  intro rest
  induction rest with
  | nil =>
      intro L i bi hlen hagree hbi hmax hstrict
      unfold entriesBestLoop
      simp only [List.length_nil] at hlen
      exact ⟨hbi, fun j hj => hmax j (by omega), hstrict⟩
  | cons e rest2 ih =>
      intro L i bi hlen hagree hbi hmax hstrict
      simp only [List.length_cons] at hlen
      have hi : i < L.length := by omega
      have hei : e = L.getD i defaultEntry := by
        have h0 := hagree 0 (by simp)
        simpa using h0
      have hsz : e.GetWidth * e.GetHeight = sizeAt L i := by
        rw [hei]; rfl
      have hagree2 : ∀ k, k < rest2.length →
          rest2.getD k defaultEntry = L.getD (i + 1 + k) defaultEntry := by
        intro k hk
        have := hagree (k + 1) (by simp; omega)
        simpa [List.getD_cons_succ, Nat.add_assoc, Nat.add_comm 1 k] using this
      unfold entriesBestLoop
      by_cases hcmp : e.GetWidth * e.GetHeight > sizeAt L bi
      · rw [if_pos hcmp, hsz]
        refine ih L (i + 1) i (by omega) hagree2 hi ?_ ?_
        · intro j hj
          rcases Nat.lt_succ_iff_lt_or_eq.mp hj with hlt | heq
          · exact le_of_lt (lt_of_le_of_lt (hmax j hlt) (hsz ▸ hcmp))
          · subst heq; exact le_refl _
        · intro j hj
          exact lt_of_le_of_lt (hmax j hj) (hsz ▸ hcmp)
      · rw [if_neg hcmp]
        refine ih L (i + 1) bi (by omega) hagree2 hbi ?_ hstrict
        intro j hj
        rcases Nat.lt_succ_iff_lt_or_eq.mp hj with hlt | heq
        · exact hmax j hlt
        · subst heq
          rw [← hsz]
          omega

/--
C7: for a decoded ICO (`images` and `entries` in bijection), `GetBestImage`
returns none exactly on an empty directory, and otherwise returns
`images[i]` for the smallest index `i` maximizing
`GetWidth() * GetHeight()` over the directory (first entry wins ties).
-/
theorem c7_getBestImage (ico : ICO) (hlen : ico.images.length = ico.entries.length) :
    (ico.entries = [] → GetBestImage ico = .ok none) ∧
    (ico.entries ≠ [] →
      ∃ i, i < ico.entries.length ∧
        GetBestImage ico = .ok (some (ico.images.getD i emptyImg)) ∧
        (∀ j, j < ico.entries.length → sizeAt ico.entries j ≤ sizeAt ico.entries i) ∧
        (∀ j, j < i → sizeAt ico.entries j < sizeAt ico.entries i)) := by
  constructor
  · intro he
    unfold GetBestImage
    rw [if_pos (by rw [hlen, he]; rfl)]
  · intro hne
    obtain ⟨e0, tl, hent⟩ : ∃ e0 tl, ico.entries = e0 :: tl := by
      cases hc : ico.entries with
      | nil => exact absurd hc hne
      | cons a b => exact ⟨a, b, rfl⟩
    have hsz0 : e0.GetWidth * e0.GetHeight = sizeAt ico.entries 0 := by
      rw [hent]; rfl
    have hspec := entriesBestLoop_spec ico.entries ico.entries 0 0 (by omega)
      (fun k hk => by simp) (by rw [hent]; simp) (by omega) (by omega)
    set r := entriesBestLoop ico.entries 0 0 (sizeAt ico.entries 0) with hr
    obtain ⟨hrlen, hrmax, hrstrict⟩ := hspec
    refine ⟨r, hrlen, ?_, hrmax, hrstrict⟩
    unfold GetBestImage
    rw [if_neg (by rw [hlen, hent]; simp)]
    rw [hent]
    simp only
    rw [← hent, hsz0, ← hr, if_pos (by omega)]

/-- Witness for C7 on the spec's example sizes {16×16, 32×32, 32×32}. -/
def icoBestExample : ICO :=
  ⟨⟨0, 1, 3⟩,
   [⟨16, 16, 0, 0, 1, 32, 0, 0⟩, ⟨32, 32, 0, 0, 1, 32, 0, 0⟩, ⟨32, 32, 0, 0, 1, 32, 0, 0⟩],
   [newImg 16 16, newImg 32 32, newImg 33 33]⟩

theorem c7_getBestImage_witness :
    ∃ i, i < icoBestExample.entries.length ∧
      GetBestImage icoBestExample = .ok (some (icoBestExample.images.getD i emptyImg)) ∧
      (∀ j, j < icoBestExample.entries.length →
        sizeAt icoBestExample.entries j ≤ sizeAt icoBestExample.entries i) ∧
      (∀ j, j < i → sizeAt icoBestExample.entries j < sizeAt icoBestExample.entries i) :=
  (c7_getBestImage icoBestExample rfl).2 (by decide)

/- ### Claim C8: GetImageBySize -/

/-- Loop invariant for `entriesScoreLoop`, mirroring `entriesBestLoop_spec`
with minimization: the loop returns the first index minimizing the Go score. -/
theorem entriesScoreLoop_spec (tw th : Int) :
    ∀ (rest L : List DirectoryEntry) (i bi : Nat),
      i + rest.length = L.length →
      (∀ k, k < rest.length → rest.getD k defaultEntry = L.getD (i + k) defaultEntry) →
      bi < L.length →
      (∀ j, j < i → scoreAt L tw th bi ≤ scoreAt L tw th j) →
      (∀ j, j < bi → scoreAt L tw th bi < scoreAt L tw th j) →
      entriesScoreLoop tw th rest i bi (scoreAt L tw th bi) < L.length ∧
      (∀ j, j < L.length →
        scoreAt L tw th (entriesScoreLoop tw th rest i bi (scoreAt L tw th bi)) ≤
          scoreAt L tw th j) ∧
      (∀ j, j < entriesScoreLoop tw th rest i bi (scoreAt L tw th bi) →
        scoreAt L tw th (entriesScoreLoop tw th rest i bi (scoreAt L tw th bi)) <
          scoreAt L tw th j) := by
  intro rest
  induction rest with
  | nil =>
      intro L i bi hlen hagree hbi hmin hstrict
      unfold entriesScoreLoop
      simp only [List.length_nil] at hlen
      exact ⟨hbi, fun j hj => hmin j (by omega), hstrict⟩
  | cons e rest2 ih =>
      intro L i bi hlen hagree hbi hmin hstrict
      simp only [List.length_cons] at hlen
      have hi : i < L.length := by omega
      have hei : e = L.getD i defaultEntry := by
        have h0 := hagree 0 (by simp)
        simpa using h0
      have hsz : scoreSizeMatch e tw th = scoreAt L tw th i := by
        rw [hei]; rfl
      have hagree2 : ∀ k, k < rest2.length →
          rest2.getD k defaultEntry = L.getD (i + 1 + k) defaultEntry := by
        intro k hk
        have := hagree (k + 1) (by simp; omega)
        simpa [List.getD_cons_succ, Nat.add_assoc, Nat.add_comm 1 k] using this
      unfold entriesScoreLoop
      by_cases hcmp : scoreSizeMatch e tw th < scoreAt L tw th bi
      · rw [if_pos hcmp, hsz]
        refine ih L (i + 1) i (by omega) hagree2 hi ?_ ?_
        · intro j hj
          rcases Nat.lt_succ_iff_lt_or_eq.mp hj with hlt | heq
          · exact le_of_lt (lt_of_lt_of_le (hsz ▸ hcmp) (hmin j hlt))
          · subst heq; exact le_refl _
        · intro j hj
          exact lt_of_lt_of_le (hsz ▸ hcmp) (hmin j hj)
      · rw [if_neg hcmp]
        refine ih L (i + 1) bi (by omega) hagree2 hbi ?_ hstrict
        intro j hj
        rcases Nat.lt_succ_iff_lt_or_eq.mp hj with hlt | heq
        · exact hmin j hlt
        · subst heq
          rw [← hsz]
          omega

/--
C8 as amended: (1) for a decoded ICO, `GetImageBySize(w,h)` always returns
`images[i]` for the smallest index `i` minimizing the score that
`scoreSizeMatch` computes in wrapping 64-bit integer arithmetic (first index
wins ties, no threshold); (2) whenever both targets lie within
±(2^31 − 257) — in particular for every realistic size — that score equals
the exact squared Euclidean distance of the claim.
-/
theorem c8_getImageBySize :
    (∀ (ico : ICO) (w h : Int), ico.images.length = ico.entries.length →
      ico.entries ≠ [] →
      ∃ i, i < ico.entries.length ∧
        GetImageBySize ico w h = .ok (some (ico.images.getD i emptyImg)) ∧
        (∀ j, j < ico.entries.length → scoreAt ico.entries w h i ≤ scoreAt ico.entries w h j) ∧
        (∀ j, j < i → scoreAt ico.entries w h i < scoreAt ico.entries w h j)) ∧
    (∀ (e : DirectoryEntry) (w h : Int),
      -(2147483391 : Int) ≤ w → w ≤ 2147483391 → -(2147483391 : Int) ≤ h → h ≤ 2147483391 →
      e.width ≤ 255 → e.height ≤ 255 →
      scoreSizeMatch e w h =
        (e.GetWidth - w) * (e.GetWidth - w) + (e.GetHeight - h) * (e.GetHeight - h)) := by
  constructor
  · intro ico w h hlen hne
    obtain ⟨e0, tl, hent⟩ : ∃ e0 tl, ico.entries = e0 :: tl := by
      cases hc : ico.entries with
      | nil => exact absurd hc hne
      | cons a b => exact ⟨a, b, rfl⟩
    have hsz0 : scoreSizeMatch e0 w h = scoreAt ico.entries w h 0 := by
      rw [hent]; rfl
    have hspec := entriesScoreLoop_spec w h ico.entries ico.entries 0 0 (by omega)
      (fun k hk => by simp) (by rw [hent]; simp) (by omega) (by omega)
    set r := entriesScoreLoop w h ico.entries 0 0 (scoreAt ico.entries w h 0) with hr
    obtain ⟨hrlen, hrmin, hrstrict⟩ := hspec
    refine ⟨r, hrlen, ?_, hrmin, hrstrict⟩
    unfold GetImageBySize
    rw [if_neg (by rw [hlen, hent]; simp)]
    rw [hent]
    simp only
    rw [← hent, hsz0, ← hr, if_pos (by omega)]
  · intro e w h hw1 hw2 hh1 hh2 hew heh
    have hgw1 : 1 ≤ e.GetWidth := by
      unfold DirectoryEntry.GetWidth
      split <;> omega
    have hgw2 : e.GetWidth ≤ 256 := by
      unfold DirectoryEntry.GetWidth
      split <;> omega
    have hgh1 : 1 ≤ e.GetHeight := by
      unfold DirectoryEntry.GetHeight
      split <;> omega
    have hgh2 : e.GetHeight ≤ 256 := by
      unfold DirectoryEntry.GetHeight
      split <;> omega
    have wrapid : ∀ n : Int, -(9223372036854775808 : Int) ≤ n → n < 9223372036854775808 →
        wrap64 n = n := by
      intro n h1 h2
      unfold wrap64
      rw [Int.emod_eq_of_lt (by omega) (by omega)]
      omega
    have hwd : wrap64 (e.GetWidth - w) = e.GetWidth - w := wrapid _ (by omega) (by omega)
    have hhd : wrap64 (e.GetHeight - h) = e.GetHeight - h := wrapid _ (by omega) (by omega)
    have hB : ∀ d : Int, -2147483647 ≤ d → d ≤ 2147483647 → d * d ≤ 4611686014132420609 := by
      intro d h1 h2
      have hf : (0 : Int) ≤ (2147483647 - d) * (2147483647 + d) :=
        mul_nonneg (by omega) (by omega)
      nlinarith [hf]
    have hwdb := hB (e.GetWidth - w) (by omega) (by omega)
    have hhdb := hB (e.GetHeight - h) (by omega) (by omega)
    have hwd0 : 0 ≤ (e.GetWidth - w) * (e.GetWidth - w) := mul_self_nonneg _
    have hhd0 : 0 ≤ (e.GetHeight - h) * (e.GetHeight - h) := mul_self_nonneg _
    unfold scoreSizeMatch
    rw [hwd, hhd]
    simp only
    rw [wrapid ((e.GetWidth - w) * (e.GetWidth - w)) (by linarith) (by linarith)]
    rw [wrapid ((e.GetHeight - h) * (e.GetHeight - h)) (by linarith) (by linarith)]
    rw [wrapid _ (by linarith) (by linarith)]

/-- Two entries (256×256 and 1×1) for the C8 overflow counterexample. -/
def icoScoreWrap : ICO :=
  ⟨⟨0, 1, 2⟩,
   [⟨0, 0, 0, 0, 1, 32, 0, 0⟩, ⟨1, 1, 0, 0, 1, 32, 0, 0⟩],
   [newImg 256 256, newImg 1 1]⟩

/--
C8 counterexample: with entries {256×256, 1×1} and target
(2^63 − 1, 0), the exact squared distance of the 256×256 entry is strictly
smaller, yet `GetImageBySize` returns the 1×1 image, because the Go score is
computed in wrapping 64-bit arithmetic (the wrapped scores are 131585 and 5).
-/
theorem c8_wrap_flips_argmin :
    GetImageBySize icoScoreWrap 9223372036854775807 0 = .ok (some (newImg 1 1)) ∧
    ((256 : Int) - 9223372036854775807) * (256 - 9223372036854775807) + (256 - 0) * (256 - 0) <
      ((1 : Int) - 9223372036854775807) * (1 - 9223372036854775807) + (1 - 0) * (1 - 0) ∧
    newImg 1 1 ≠ newImg 256 256 := by
  refine ⟨rfl, by decide, ?_⟩
  intro hcon
  exact absurd (congrArg Img.width hcon) (by decide)

/-- Two entries (8×8 and 32×32) matching the spec's `GetImageBySize` example. -/
def icoSizeExample : ICO :=
  ⟨⟨0, 1, 2⟩,
   [⟨8, 8, 0, 0, 1, 32, 0, 0⟩, ⟨32, 32, 0, 0, 1, 32, 0, 0⟩],
   [newImg 8 8, newImg 32 32]⟩

/-- Witness for the amended C8: part (1) on the spec's {8×8, 32×32} example
with target 16×16, part (2) on the 8×8 entry at that target. -/
theorem c8_getImageBySize_witness :
    (∃ i, i < icoSizeExample.entries.length ∧
      GetImageBySize icoSizeExample 16 16 =
        .ok (some (icoSizeExample.images.getD i emptyImg)) ∧
      (∀ j, j < icoSizeExample.entries.length →
        scoreAt icoSizeExample.entries 16 16 i ≤ scoreAt icoSizeExample.entries 16 16 j) ∧
      (∀ j, j < i →
        scoreAt icoSizeExample.entries 16 16 i < scoreAt icoSizeExample.entries 16 16 j)) ∧
    scoreSizeMatch ⟨8, 8, 0, 0, 1, 32, 0, 0⟩ 16 16 =
      ((⟨8, 8, 0, 0, 1, 32, 0, 0⟩ : DirectoryEntry).GetWidth - 16) *
        ((⟨8, 8, 0, 0, 1, 32, 0, 0⟩ : DirectoryEntry).GetWidth - 16) +
      ((⟨8, 8, 0, 0, 1, 32, 0, 0⟩ : DirectoryEntry).GetHeight - 16) *
        ((⟨8, 8, 0, 0, 1, 32, 0, 0⟩ : DirectoryEntry).GetHeight - 16) :=
  ⟨c8_getImageBySize.1 icoSizeExample 16 16 rfl (by decide),
   c8_getImageBySize.2 ⟨8, 8, 0, 0, 1, 32, 0, 0⟩ 16 16 (by decide) (by decide) (by decide)
     (by decide) (by decide) (by decide)⟩

/- ### Claim C9: DecodeConfig -/

theorem GetWidth_pos (e : DirectoryEntry) : 1 ≤ e.GetWidth := by
  unfold DirectoryEntry.GetWidth
  split <;> omega

theorem GetHeight_pos (e : DirectoryEntry) : 1 ≤ e.GetHeight := by
  unfold DirectoryEntry.GetHeight
  split <;> omega

theorem sizeAt_pos (L : List DirectoryEntry) (j : Nat) : 1 ≤ sizeAt L j := by
  unfold sizeAt
  nlinarith [GetWidth_pos (L.getD j defaultEntry), GetHeight_pos (L.getD j defaultEntry)]

/-- Loop invariant for `configLoop`: once the running maximum is the first
maximizer of the first `i` entries, the loop ends with the effective
dimensions of the first maximizer of the whole directory. -/
theorem configLoop_spec :
    ∀ (rest L : List DirectoryEntry) (i b : Nat),
      i + rest.length = L.length →
      (∀ k, k < rest.length → rest.getD k defaultEntry = L.getD (i + k) defaultEntry) →
      b < L.length → b < i →
      (∀ j, j < i → sizeAt L j ≤ sizeAt L b) →
      (∀ j, j < b → sizeAt L j < sizeAt L b) →
      ∃ r, r < L.length ∧
        configLoop rest (L.getD b defaultEntry).GetWidth (L.getD b defaultEntry).GetHeight =
          ((L.getD r defaultEntry).GetWidth, (L.getD r defaultEntry).GetHeight) ∧
        (∀ j, j < L.length → sizeAt L j ≤ sizeAt L r) ∧
        (∀ j, j < r → sizeAt L j < sizeAt L r) := by
  intro rest
  induction rest with
  | nil =>
      intro L i b hlen hagree hb hbi hmax hstrict
      simp only [List.length_nil] at hlen
      exact ⟨b, hb, rfl, fun j hj => hmax j (by omega), hstrict⟩
  | cons e rest2 ih =>
      intro L i b hlen hagree hb hbi hmax hstrict
      simp only [List.length_cons] at hlen
      have hi : i < L.length := by omega
      have hei : e = L.getD i defaultEntry := by
        have h0 := hagree 0 (by simp)
        simpa using h0
      have hagree2 : ∀ k, k < rest2.length →
          rest2.getD k defaultEntry = L.getD (i + 1 + k) defaultEntry := by
        intro k hk
        have := hagree (k + 1) (by simp; omega)
        simpa [List.getD_cons_succ, Nat.add_assoc, Nat.add_comm 1 k] using this
      unfold configLoop
      by_cases hcmp : e.GetWidth * e.GetHeight >
          (L.getD b defaultEntry).GetWidth * (L.getD b defaultEntry).GetHeight
      · rw [if_pos hcmp, hei]
        refine ih L (i + 1) i (by omega) hagree2 hi (by omega) ?_ ?_
        · intro j hj
          rcases Nat.lt_succ_iff_lt_or_eq.mp hj with hlt | heq
          · exact le_of_lt (lt_of_le_of_lt (hmax j hlt) (by rw [hei] at hcmp; exact hcmp))
          · subst heq; exact le_refl _
        · intro j hj
          exact lt_of_le_of_lt (hmax j hj) (by rw [hei] at hcmp; exact hcmp)
      · rw [if_neg hcmp]
        refine ih L (i + 1) b (by omega) hagree2 hb (by omega) ?_ hstrict
        intro j hj
        rcases Nat.lt_succ_iff_lt_or_eq.mp hj with hlt | heq
        · exact hmax j hlt
        · subst heq
          unfold sizeAt
          rw [← hei]
          exact le_of_not_lt hcmp

/--
C9: `DecodeConfig` succeeds on a stream of exactly 6 + 16·count bytes (no
payload present) whenever reserved = 0, type = 1 and count > 0, and returns
the header count together with the effective dimensions of the first entry
maximizing effectiveWidth·effectiveHeight (the same product rule, with the
same tie-breaking, as `GetBestImage`).
-/
theorem c9_decodeConfig (data : List Nat)
    (hres : leU16 data 0 = 0) (htyp : leU16 data 2 = 1) (hcnt : 0 < leU16 data 4)
    (hlen : data.length = 6 + 16 * leU16 data 4) :
    ∃ b, b < (configEntries data).length ∧
      DecodeConfig data =
        .ok ⟨((configEntries data).getD b defaultEntry).GetWidth,
             ((configEntries data).getD b defaultEntry).GetHeight, leU16 data 4⟩ ∧
      (∀ j, j < (configEntries data).length →
        sizeAt (configEntries data) j ≤ sizeAt (configEntries data) b) ∧
      (∀ j, j < b → sizeAt (configEntries data) j < sizeAt (configEntries data) b) := by
  have hclen : (configEntries data).length = leU16 data 4 := by
    unfold configEntries
    rw [List.length_map, List.length_range]
  obtain ⟨e0, tl, hent⟩ : ∃ e0 tl, configEntries data = e0 :: tl := by
    cases hc : configEntries data with
    | nil => rw [hc] at hclen; simp at hclen; omega
    | cons a b => exact ⟨a, b, rfl⟩
  have he0 : e0 = (configEntries data).getD 0 defaultEntry := by rw [hent]; rfl
  have hstep : configLoop (configEntries data) 0 0 =
      configLoop tl ((configEntries data).getD 0 defaultEntry).GetWidth
        ((configEntries data).getD 0 defaultEntry).GetHeight := by
    rw [hent]
    simp only [configLoop]
    rw [if_pos (by
      have h1 := GetWidth_pos e0
      have h2 := GetHeight_pos e0
      nlinarith)]
    rfl
  have hspec := configLoop_spec tl (configEntries data) 1 0
    (by rw [hent]; simp only [List.length_cons]; omega)
    (fun k hk => by rw [hent, Nat.add_comm 1 k]; simp [List.getD_cons_succ])
    (by omega) (by omega)
    (fun j hj => by
      have hj0 : j = 0 := by omega
      subst hj0
      exact le_refl _)
    (fun j hj => by omega)
  obtain ⟨r, hrlen, hreq, hrmax, hrstrict⟩ := hspec
  refine ⟨r, hrlen, ?_, hrmax, hrstrict⟩
  unfold DecodeConfig
  rw [if_neg (by omega)]
  simp only
  rw [if_neg (by simp [hres, htyp]; omega), if_neg (by omega), hstep, hreq]

/-- Witness for C9: a 22-byte stream (header plus one 16×16 entry, no
payload) on which `DecodeConfig` reports count 1 and size 16×16. -/
def configOnlyBytes : List Nat :=
  [0, 0, 1, 0, 1, 0, 16, 16, 0, 0, 1, 0, 32, 0, 0, 0, 0, 0, 0, 0, 0, 0]

theorem c9_decodeConfig_witness :
    ∃ b, b < (configEntries configOnlyBytes).length ∧
      DecodeConfig configOnlyBytes =
        .ok ⟨((configEntries configOnlyBytes).getD b defaultEntry).GetWidth,
             ((configEntries configOnlyBytes).getD b defaultEntry).GetHeight,
             leU16 configOnlyBytes 4⟩ ∧
      (∀ j, j < (configEntries configOnlyBytes).length →
        sizeAt (configEntries configOnlyBytes) j ≤ sizeAt (configEntries configOnlyBytes) b) ∧
      (∀ j, j < b →
        sizeAt (configEntries configOnlyBytes) j < sizeAt (configEntries configOnlyBytes) b) :=
  c9_decodeConfig configOnlyBytes (by decide) (by decide) (by decide) (by decide)
